import Mathlib

/-!
Verification of the component validation/normalization layer of the
atlas-api-helper-npm package (src/package/src/types/components.ts and
src/package/src/httpClient.ts), shallowly embedded in Lean 4.

JSON-like runtime values are modelled by the inductive `Value`; JavaScript
records (objects) are association lists in insertion order, sequences are
lists.  `Value.vnull` models the JavaScript value null and `Value.vundef`
models undefined (absent); the two must be distinguished because
`componentsToRecord` tests only for undefined while `stripValue` tests for
both.
-/

/-- A JSON-like JavaScript runtime value.  Numbers are modelled by `Int`:
none of the verified code inspects numeric values, it only passes them
through, so the exact numeric domain is irrelevant. -/
inductive Value : Type where
  | vnull : Value
  | vundef : Value
  | str : String → Value
  | num : Int → Value
  | bool : Bool → Value
  | arr : List Value → Value
  | obj : List (String × Value) → Value

/-- Embedding of the test `value === null || value === undefined` used by
`stripValue` (components.ts lines 283 and 288). -/
def isNullish : Value → Bool
  | .vnull => true
  | .vundef => true
  | _ => false

/-- Embedding of the test `value === undefined`: the check
`stripped !== undefined` of components.ts line 301 and
`components === undefined` of line 323 test against undefined only
(not null). -/
def isUndef : Value → Bool
  | .vundef => true
  | _ => false

mutual

/-- Embedding of the inner helper `stripValue` of `stripNulls`
(components.ts lines 282-308): nullish values become undefined, arrays map
over their elements keeping nullish elements verbatim, objects drop
nullish fields and fields whose stripped value is undefined, scalars pass
through. -/
def stripValue : Value → Value
  | .vnull => .vundef
  | .vundef => .vundef
  | .arr items => .arr (stripArr items)
  | .obj fields => .obj (stripObj fields)
  | .str s => .str s
  | .num n => .num n
  | .bool b => .bool b

/-- The `value.map(...)` body of the array branch of `stripValue`
(components.ts lines 287-292): nullish elements are returned as-is, other
elements are recursively stripped. -/
def stripArr : List Value → List Value
  | [] => []
  | item :: rest =>
      (if isNullish item then item else stripValue item) :: stripArr rest

/-- The `Object.entries` loop of the object branch of `stripValue`
(components.ts lines 295-304): nullish field values are skipped; otherwise
the stripped value is kept under the same key unless it is undefined. -/
def stripObj : List (String × Value) → List (String × Value)
  | [] => []
  | (key, innerValue) :: rest =>
      if isNullish innerValue then stripObj rest
      else
        let stripped := stripValue innerValue
        if isUndef stripped then stripObj rest
        else (key, stripped) :: stripObj rest

end

/-- Embedding of `stripNulls` (components.ts lines 281-311): it simply
applies `stripValue` to its argument. -/
def stripNulls (obj : Value) : Value := stripValue obj

/-- The known entity component keys (components.ts lines 249-261). -/
def KNOWN_ENTITY_COMPONENTS : List String :=
  ["telemetry", "geometry", "task_catalog", "media_refs", "mil_view",
   "health", "sensor_refs", "communications", "task_queue", "status",
   "heartbeat"]

/-- The error message thrown for an unknown component key
(components.ts lines 269-271); the single-quote characters around the key
are written via escapes. -/
def unknownComponentMessage (key : String) : String :=
  "Unknown component \x27" ++ key ++
    "\x27 in entity components. Custom components must be prefixed with \x27custom_\x27"

/-- The JavaScript string method `s.startsWith(pre)`, modelled on the
character lists of the strings (the core `String.startsWith` is
byte-level and does not reduce in the kernel). -/
def strStartsWith (s pre : String) : Bool := pre.data.isPrefixOf s.data

/-- Embedding of `validateEntityComponents` (components.ts lines 266-274):
iterate the keys in insertion order and throw on the first key that is
neither known nor starting with "custom_".  A thrown `Error` is modelled
by `Except.error` carrying the message. -/
def validateEntityComponents : List (String × Value) → Except String Unit
  | [] => .ok ()
  | (key, _) :: rest =>
      if !(KNOWN_ENTITY_COMPONENTS.contains key) && !(strStartsWith key "custom_") then
        .error (unknownComponentMessage key)
      else validateEntityComponents rest

/-- Embedding of `componentsToRecord` (components.ts lines 320-328): the
input is `EntityComponents | TaskComponents | undefined`; undefined is
passed through, everything else goes to `stripNulls`.  The JavaScript
`=== undefined` check does not match null, so a null argument reaches
`stripNulls`. -/
def componentsToRecord (components : Value) : Value :=
  if isUndef components then .vundef
  else stripNulls components

example : stripValue (.obj [("a", .num 1), ("b", .vnull), ("c", .vundef)])
    = .obj [("a", .num 1)] := rfl

example :
    stripValue (.obj [("polygon",
      .arr [.arr [.num 1, .num 2], .arr [.vnull, .vnull], .arr [.num 3, .num 4]])])
    = .obj [("polygon",
      .arr [.arr [.num 1, .num 2], .arr [.vnull, .vnull], .arr [.num 3, .num 4]])] := rfl

example : componentsToRecord (.obj [("telemetry", .obj [("latitude", .vundef)])])
    = .obj [("telemetry", .obj [])] := rfl

example : componentsToRecord .vnull = .vundef := rfl

example : validateEntityComponents [("custom_", .obj [])] = .ok () := rfl

example : validateEntityComponents [("unknown_key", .obj [])]
    = .error (unknownComponentMessage "unknown_key") := rfl

/-- Specification-side predicate: a top-level key is acceptable when it is
one of the eleven known component names or begins with the reserved
prefix.  This is the condition of components.ts line 268 with the
negations folded away. -/
def validKey (key : String) : Bool :=
  KNOWN_ENTITY_COMPONENTS.contains key || strStartsWith key "custom_"

/-- Specification-side function: the first offending key of a mapping in
insertion-iteration order (none when every key is acceptable). -/
def firstBadKey : List (String × Value) → Option String
  | [] => none
  | (key, _) :: rest => if validKey key then firstBadKey rest else some key

mutual

/-- True when a value contains no null/undefined anywhere, at any depth. -/
def noNulls : Value → Bool
  | .vnull => false
  | .vundef => false
  | .str _ => true
  | .num _ => true
  | .bool _ => true
  | .arr items => noNullsArr items
  | .obj fields => noNullsObj fields

/-- List version of `noNulls` for sequence elements. -/
def noNullsArr : List Value → Bool
  | [] => true
  | item :: rest => noNulls item && noNullsArr rest

/-- Field-list version of `noNulls` for record fields. -/
def noNullsObj : List (String × Value) → Bool
  | [] => true
  | (_, v) :: rest => noNulls v && noNullsObj rest

end

/-- True exactly for record and sequence values (the inputs the
idempotence property of the spec quantifies over). -/
def isContainer : Value → Bool
  | .arr _ => true
  | .obj _ => true
  | _ => false

mutual

/-- Output invariant of the normalizer: no record at any depth binds a
field to a nullish value.  Nullish values are still allowed as sequence
elements (the catch-all returns true for them). -/
def noNullFields : Value → Bool
  | .arr items => noNullFieldsArr items
  | .obj fields => noNullFieldsObj fields
  | _ => true

/-- Sequence-elements version of `noNullFields`. -/
def noNullFieldsArr : List Value → Bool
  | [] => true
  | item :: rest => noNullFields item && noNullFieldsArr rest

/-- Record-fields version of `noNullFields`: every field value must be
non-nullish and itself satisfy the invariant. -/
def noNullFieldsObj : List (String × Value) → Bool
  | [] => true
  | (_, v) :: rest => !isNullish v && noNullFields v && noNullFieldsObj rest

end

mutual

/-- Fuel-indexed variant of `stripValue`, used to state termination of the
recursion: each recursive call consumes one unit of fuel and exhausted
fuel yields `none`.  The recursion of the source terminates on a given
(acyclic) input exactly when some finite fuel suffices. -/
def stripValueFuel : Nat → Value → Option Value
  | 0, _ => none
  | _ + 1, .vnull => some .vundef
  | _ + 1, .vundef => some .vundef
  | _ + 1, .str s => some (.str s)
  | _ + 1, .num n => some (.num n)
  | _ + 1, .bool b => some (.bool b)
  | n + 1, .arr items => (stripArrFuel n items).map .arr
  | n + 1, .obj fields => (stripObjFuel n fields).map .obj

/-- Fuel-indexed variant of `stripArr`. -/
def stripArrFuel : Nat → List Value → Option (List Value)
  | 0, _ => none
  | _ + 1, [] => some []
  | n + 1, item :: rest => do
      let head ← if isNullish item then some item else stripValueFuel n item
      let tail ← stripArrFuel n rest
      some (head :: tail)

/-- Fuel-indexed variant of `stripObj`. -/
def stripObjFuel : Nat → List (String × Value) → Option (List (String × Value))
  | 0, _ => none
  | _ + 1, [] => some []
  | n + 1, (key, innerValue) :: rest =>
      if isNullish innerValue then stripObjFuel n rest
      else do
        let stripped ← stripValueFuel n innerValue
        let tail ← stripObjFuel n rest
        some (if isUndef stripped then tail else (key, stripped) :: tail)

end

/-- An outgoing HTTP request as handed to the transport: the abstraction
of the `this.request(method, path, body)` call of httpClient.ts.  A client
method that returns `Except.error` never reaches the transport. -/
structure Request where
  method : String
  path : String
  body : Option (List (String × Value))

/-- Embedding of `AtlasHttpClient.createEntity` (httpClient.ts lines
135-154): the payload carries the scalar fields; when components are
given, `validateEntityComponents` runs first and a thrown error aborts
the method before any transport call; otherwise the normalized components
are appended to the payload. -/
def createEntity (entityId entityType aliasName subtype : String)
    (components : Option (List (String × Value))) : Except String Request :=
  let payload : List (String × Value) :=
    [("entity_id", .str entityId), ("entity_type", .str entityType),
     ("alias", .str aliasName), ("subtype", .str subtype)]
  match components with
  | none => .ok ⟨"POST", "/entities", some payload⟩
  | some comps =>
      match validateEntityComponents comps with
      | .error e => .error e
      | .ok _ =>
          .ok ⟨"POST", "/entities",
               some (payload ++ [("components", componentsToRecord (.obj comps))])⟩

/-- Subtype fragment of the `updateEntity` payload. -/
def subtypeFields : Option String → List (String × Value)
  | none => []
  | some s => [("subtype", .str s)]

/-- Embedding of `AtlasHttpClient.updateEntity` (httpClient.ts lines
156-167): requires a components payload or a subtype; when components are
given, `validateEntityComponents` runs before the normalizer and a thrown
error aborts the method before any transport call. -/
def updateEntity (entityId : String) (components : Option (List (String × Value)))
    (subtype : Option String) : Except String Request :=
  match components, subtype with
  | none, none =>
      .error "AtlasHttpClient.updateEntity requires a components payload or subtype."
  | _, _ =>
      match components with
      | none => .ok ⟨"PATCH", "/entities/" ++ entityId, some (subtypeFields subtype)⟩
      | some comps =>
          match validateEntityComponents comps with
          | .error e => .error e
          | .ok _ =>
              .ok ⟨"PATCH", "/entities/" ++ entityId,
                   some ([("components", componentsToRecord (.obj comps))]
                     ++ subtypeFields subtype)⟩

/-- Embedding of `AtlasHttpClient.createTask` (httpClient.ts lines
235-248): the payload starts with task_id and status (an absent or empty
status falls back to "pending" through the JavaScript `||` operator),
then entity_id, components and extra when present.  No validator is
invoked: the components go straight to `componentsToRecord`. -/
def createTask (taskId : String) (components : Option (List (String × Value)))
    (status entityId : Option String)
    (extra : Option (List (String × Value))) : Except String Request :=
  let statusVal : String :=
    match status with
    | none => "pending"
    | some s => if s = "" then "pending" else s
  let payload : List (String × Value) :=
    [("task_id", .str taskId), ("status", .str statusVal)]
      ++ (match entityId with | none => [] | some e => [("entity_id", .str e)])
      ++ (match components with
          | none => []
          | some comps => [("components", componentsToRecord (.obj comps))])
      ++ (match extra with | none => [] | some x => [("extra", .obj x)])
  .ok ⟨"POST", "/tasks", some payload⟩

/-- The options bag of `AtlasHttpClient.updateTask`. -/
structure TaskOptions where
  status : Option String
  entityId : Option String
  extra : Option (List (String × Value))

/-- Embedding of `AtlasHttpClient.updateTask` (httpClient.ts lines
250-266): throws when both the components and the options bag are absent;
otherwise builds the payload from components (normalized, never
validated), status, entity_id and extra, in that order. -/
def updateTask (taskId : String) (components : Option (List (String × Value)))
    (options : Option TaskOptions) : Except String Request :=
  match components, options with
  | none, none =>
      .error "AtlasHttpClient.updateTask requires a components payload or options."
  | _, _ =>
      let opts : TaskOptions :=
        match options with
        | none => ⟨none, none, none⟩
        | some o => o
      let payload : List (String × Value) :=
        (match components with
         | none => []
         | some comps => [("components", componentsToRecord (.obj comps))])
          ++ (match opts.status with | none => [] | some s => [("status", .str s)])
          ++ (match opts.entityId with | none => [] | some e => [("entity_id", .str e)])
          ++ (match opts.extra with | none => [] | some x => [("extra", .obj x)])
      .ok ⟨"PATCH", "/tasks/" ++ taskId, some payload⟩

theorem stripValue_obj (fields : List (String × Value)) :
    stripValue (.obj fields) = .obj (stripObj fields) := rfl

theorem stripValue_arr (items : List Value) :
    stripValue (.arr items) = .arr (stripArr items) := rfl

theorem stripValue_not_nullish (v : Value) (h : isNullish v = false) :
    isNullish (stripValue v) = false := by
  cases v <;> simp [isNullish, stripValue] at *

theorem isUndef_eq_false_of_not_nullish (v : Value) (h : isNullish v = false) :
    isUndef v = false := by
  cases v <;> simp [isNullish, isUndef] at *

theorem stripArr_eq_map (items : List Value) :
    stripArr items = items.map fun item => if isNullish item then item else stripValue item := by
  induction items with
  | nil => rfl
  | cons item rest ih => simp [stripArr, ih]

theorem stripObj_eq_filter_map (fields : List (String × Value)) :
    stripObj fields
      = (fields.filter fun p => !isNullish p.2).map fun p => (p.1, stripValue p.2) := by
  induction fields with
  | nil => rfl
  | cons p rest ih =>
      obtain ⟨key, v⟩ := p
      cases hv : isNullish v with
      | true => simp [stripObj, hv, ih, List.filter_cons]
      | false =>
          have hu : isUndef (stripValue v) = false :=
            isUndef_eq_false_of_not_nullish _ (stripValue_not_nullish v hv)
          simp [stripObj, hv, hu, ih, List.filter_cons]

theorem validate_cond_eq_not_validKey (key : String) :
    (!(KNOWN_ENTITY_COMPONENTS.contains key) && !(strStartsWith key "custom_"))
      = !validKey key := by
  simp [validKey]

theorem validateEntityComponents_cons (key : String) (v : Value)
    (rest : List (String × Value)) :
    validateEntityComponents ((key, v) :: rest)
      = if validKey key then validateEntityComponents rest
        else .error (unknownComponentMessage key) := by
  show (if (!(KNOWN_ENTITY_COMPONENTS.contains key) && !(strStartsWith key "custom_"))
          then Except.error (unknownComponentMessage key)
          else validateEntityComponents rest)
      = if validKey key then validateEntityComponents rest
        else .error (unknownComponentMessage key)
  rw [validate_cond_eq_not_validKey]
  cases hv : validKey key <;> simp

theorem validateEntityComponents_eq_firstBadKey (m : List (String × Value)) :
    validateEntityComponents m
      = match firstBadKey m with
        | none => .ok ()
        | some k => .error (unknownComponentMessage k) := by
  induction m with
  | nil => rfl
  | cons p rest ih =>
      obtain ⟨key, v⟩ := p
      cases hv : validKey key with
      | true => simp [validateEntityComponents_cons, firstBadKey, hv, ih]
      | false => simp [validateEntityComponents_cons, firstBadKey, hv]

theorem firstBadKey_none_iff (m : List (String × Value)) :
    firstBadKey m = none ↔ (m.all fun p => validKey p.1) = true := by
  induction m with
  | nil => simp [firstBadKey]
  | cons p rest ih =>
      obtain ⟨key, v⟩ := p
      cases hv : validKey key with
      | true => simp [firstBadKey, hv, ih]
      | false => simp [firstBadKey, hv]

theorem firstBadKey_some_invalid (m : List (String × Value)) (k : String)
    (h : firstBadKey m = some k) : validKey k = false := by
  induction m with
  | nil => simp [firstBadKey] at h
  | cons p rest ih =>
      obtain ⟨key, v⟩ := p
      cases hv : validKey key with
      | true =>
          rw [firstBadKey, if_pos (by simp [hv])] at h
          exact ih h
      | false =>
          rw [firstBadKey, if_neg (by simp [hv])] at h
          cases h
          exact hv

theorem not_nullish_of_noNulls (v : Value) (h : noNulls v = true) :
    isNullish v = false := by
  cases v <;> simp_all [noNulls, isNullish]

mutual

theorem stripValue_eq_self_of_noNulls (v : Value) (h : noNulls v = true) :
    stripValue v = v := by
  cases v with
  | vnull => simp [noNulls] at h
  | vundef => simp [noNulls] at h
  | str s => rfl
  | num n => rfl
  | bool b => rfl
  | arr items =>
      rw [stripValue_arr, stripArr_eq_self_of_noNulls items (by simpa [noNulls] using h)]
  | obj fields =>
      rw [stripValue_obj, stripObj_eq_self_of_noNulls fields (by simpa [noNulls] using h)]

theorem stripArr_eq_self_of_noNulls (l : List Value) (h : noNullsArr l = true) :
    stripArr l = l := by
  cases l with
  | nil => rfl
  | cons item rest =>
      simp only [noNullsArr, Bool.and_eq_true] at h
      have hn : isNullish item = false := not_nullish_of_noNulls item h.1
      simp [stripArr, hn, stripValue_eq_self_of_noNulls item h.1,
        stripArr_eq_self_of_noNulls rest h.2]

theorem stripObj_eq_self_of_noNulls (l : List (String × Value)) (h : noNullsObj l = true) :
    stripObj l = l := by
  cases l with
  | nil => rfl
  | cons p rest =>
      obtain ⟨key, v⟩ := p
      simp only [noNullsObj, Bool.and_eq_true] at h
      have hn : isNullish v = false := not_nullish_of_noNulls v h.1
      have hs : stripValue v = v := stripValue_eq_self_of_noNulls v h.1
      have hu : isUndef v = false := isUndef_eq_false_of_not_nullish v hn
      simp [stripObj, hn, hu, hs, stripObj_eq_self_of_noNulls rest h.2]

end

theorem noNullFields_of_nullish (v : Value) (h : isNullish v = true) :
    noNullFields v = true := by
  cases v <;> simp_all [isNullish, noNullFields]

mutual

theorem noNullFields_stripValue (v : Value) : noNullFields (stripValue v) = true := by
  cases v with
  | vnull => rfl
  | vundef => rfl
  | str s => rfl
  | num n => rfl
  | bool b => rfl
  | arr items =>
      rw [stripValue_arr]
      show noNullFieldsArr (stripArr items) = true
      exact noNullFieldsArr_stripArr items
  | obj fields =>
      rw [stripValue_obj]
      show noNullFieldsObj (stripObj fields) = true
      exact noNullFieldsObj_stripObj fields

theorem noNullFieldsArr_stripArr (l : List Value) :
    noNullFieldsArr (stripArr l) = true := by
  cases l with
  | nil => rfl
  | cons item rest =>
      cases hn : isNullish item with
      | true =>
          simp [stripArr, hn, noNullFieldsArr, noNullFields_of_nullish item hn,
            noNullFieldsArr_stripArr rest]
      | false =>
          simp [stripArr, hn, noNullFieldsArr, noNullFields_stripValue item,
            noNullFieldsArr_stripArr rest]

theorem noNullFieldsObj_stripObj (l : List (String × Value)) :
    noNullFieldsObj (stripObj l) = true := by
  cases l with
  | nil => rfl
  | cons p rest =>
      obtain ⟨key, v⟩ := p
      cases hn : isNullish v with
      | true => simpa [stripObj, hn] using noNullFieldsObj_stripObj rest
      | false =>
          have hu : isUndef (stripValue v) = false :=
            isUndef_eq_false_of_not_nullish _ (stripValue_not_nullish v hn)
          simp [stripObj, hn, hu, noNullFieldsObj, stripValue_not_nullish v hn,
            noNullFields_stripValue v, noNullFieldsObj_stripObj rest]

end

mutual

theorem stripValueFuel_complete (n : Nat) (v : Value) (h : sizeOf v ≤ n) :
    stripValueFuel n v = some (stripValue v) := by
  cases n with
  | zero => exfalso; cases v <;> simp at h
  | succ n =>
      cases v with
      | vnull => rfl
      | vundef => rfl
      | str s => rfl
      | num k => rfl
      | bool b => rfl
      | arr items =>
          have hs : sizeOf items ≤ n := by simp at h; omega
          show (stripArrFuel n items).map .arr = some (stripValue (.arr items))
          rw [stripArrFuel_complete n items hs, stripValue_arr]; rfl
      | obj fields =>
          have hs : sizeOf fields ≤ n := by simp at h; omega
          show (stripObjFuel n fields).map .obj = some (stripValue (.obj fields))
          rw [stripObjFuel_complete n fields hs, stripValue_obj]; rfl

theorem stripArrFuel_complete (n : Nat) (l : List Value) (h : sizeOf l ≤ n) :
    stripArrFuel n l = some (stripArr l) := by
  cases n with
  | zero => exfalso; cases l <;> simp at h
  | succ n =>
      cases l with
      | nil => rfl
      | cons item rest =>
          have h1 : sizeOf item ≤ n := by simp at h; omega
          have h2 : sizeOf rest ≤ n := by simp at h; omega
          cases hn : isNullish item with
          | true =>
              simp [stripArrFuel, hn, stripArrFuel_complete n rest h2, stripArr]
          | false =>
              simp [stripArrFuel, hn, stripValueFuel_complete n item h1,
                stripArrFuel_complete n rest h2, stripArr]

theorem stripObjFuel_complete (n : Nat) (l : List (String × Value)) (h : sizeOf l ≤ n) :
    stripObjFuel n l = some (stripObj l) := by
  cases n with
  | zero => exfalso; cases l <;> simp at h
  | succ n =>
      cases l with
      | nil => rfl
      | cons p rest =>
          obtain ⟨key, v⟩ := p
          have h1 : sizeOf v ≤ n := by simp at h; omega
          have h2 : sizeOf rest ≤ n := by simp at h; omega
          cases hn : isNullish v with
          | true =>
              simp [stripObjFuel, hn, stripObjFuel_complete n rest h2, stripObj]
          | false =>
              simp [stripObjFuel, hn, stripValueFuel_complete n v h1,
                stripObjFuel_complete n rest h2, stripObj]

end

/-- C1: `validateEntityComponents` succeeds exactly when every top-level
key of the mapping is one of the eleven known component names or starts
with the reserved prefix (this covers the empty mapping and a key that is
exactly the bare prefix); when some key is neither, it fails with the
unknown-component-key error naming an invalid key. -/
theorem validateEntityComponents_ok_iff (m : List (String × Value)) :
    (validateEntityComponents m = .ok () ↔ (m.all fun p => validKey p.1) = true)
    ∧ ((m.all fun p => validKey p.1) = false →
        ∃ k, validKey k = false
          ∧ validateEntityComponents m = .error (unknownComponentMessage k)) := by
  have hmain := validateEntityComponents_eq_firstBadKey m
  cases hfb : firstBadKey m with
  | none =>
      have hall : (m.all fun p => validKey p.1) = true := (firstBadKey_none_iff m).mp hfb
      rw [hmain, hfb]
      exact ⟨by simp [hall], fun hc => absurd hall (by simp [hc])⟩
  | some k =>
      have hk := firstBadKey_some_invalid m k hfb
      have hall : (m.all fun p => validKey p.1) ≠ true := by
        intro hc
        have hnone := (firstBadKey_none_iff m).mpr hc
        rw [hfb] at hnone
        cases hnone
      rw [hmain, hfb]
      refine ⟨⟨fun hc => by simp at hc, fun hc => absurd hc hall⟩, fun _ => ⟨k, hk, rfl⟩⟩

theorem validateEntityComponents_ok_iff_witness :
    ∃ k, validKey k = false
      ∧ validateEntityComponents [("telemetry", .num 1), ("bogus", .num 2)]
          = .error (unknownComponentMessage k) :=
  (validateEntityComponents_ok_iff [("telemetry", .num 1), ("bogus", .num 2)]).2 rfl

/-- C2: the normalizer treats records and sequences asymmetrically: a
record keeps exactly its non-nullish fields (nullish fields are dropped
without recursion) with the kept values recursively normalized, while a
sequence maps to a sequence of the same length in which nullish elements
are kept in place verbatim and the other elements are recursively
normalized; in particular the null-dropping and polygon-preserving
examples of the spec hold. -/
theorem stripValue_record_sequence_asymmetry :
    (∀ fields : List (String × Value),
        stripValue (.obj fields)
          = .obj ((fields.filter fun p => !isNullish p.2).map
              fun p => (p.1, stripValue p.2)))
    ∧ (∀ items : List Value,
        stripValue (.arr items)
          = .arr (items.map fun item => if isNullish item then item else stripValue item))
    ∧ (∀ items : List Value, (stripArr items).length = items.length)
    ∧ stripValue (.obj [("a", .num 1), ("b", .vnull), ("c", .vundef)])
        = .obj [("a", .num 1)]
    ∧ stripValue (.obj [("polygon",
        .arr [.arr [.num 1, .num 2], .arr [.vnull, .vnull], .arr [.num 3, .num 4]])])
        = .obj [("polygon",
            .arr [.arr [.num 1, .num 2], .arr [.vnull, .vnull], .arr [.num 3, .num 4]])] := by
  refine ⟨?_, ?_, ?_, rfl, rfl⟩
  · intro fields
    rw [stripValue_obj, stripObj_eq_filter_map]
  · intro items
    rw [stripValue_arr, stripArr_eq_map]
  · intro items
    rw [stripArr_eq_map, List.length_map]

/-- C3: `componentsToRecord` passes an absent input through unchanged, and
on any non-absent mapping it always returns a record (possibly empty),
never the absent sentinel; in particular a present field whose inner
record strips to nothing becomes an empty record rather than being
omitted. -/
theorem componentsToRecord_absent_passthrough_total :
    componentsToRecord .vundef = .vundef
    ∧ (∀ fields : List (String × Value),
        ∃ out, componentsToRecord (.obj fields) = .obj out)
    ∧ componentsToRecord (.obj [("telemetry", .obj [("latitude", .vundef)])])
        = .obj [("telemetry", .obj [])] := by
  refine ⟨rfl, ?_, rfl⟩
  intro fields
  exact ⟨stripObj fields, rfl⟩

/-- C4 counterexample: `createTask` embeds a component mapping that the
validator rejects into an outgoing request without any error — the claim
that every component-accepting client method validates before sending is
false for the task methods. -/
theorem createTask_skips_validation_cex :
    validateEntityComponents [("bogus", .num 1)]
        = .error (unknownComponentMessage "bogus")
    ∧ createTask "task-1" (some [("bogus", .num 1)]) none none none
        = .ok ⟨"POST", "/tasks",
               some [("task_id", .str "task-1"), ("status", .str "pending"),
                     ("components", .obj [("bogus", .num 1)])]⟩ :=
  ⟨rfl, rfl⟩

/-- C4 amended: the entity methods `createEntity` and `updateEntity`
invoke the validator before the normalizer and abort on validation
failure, propagating the error with no transport call; the task methods
`createTask` and `updateTask` never invoke the validator and always
produce a request from a present component mapping. -/
theorem client_component_validation_scope (eid etype aname esub tid : String)
    (comps : List (String × Value)) :
    (∀ e, validateEntityComponents comps = .error e →
        createEntity eid etype aname esub (some comps) = .error e
        ∧ updateEntity eid (some comps) none = .error e)
    ∧ (validateEntityComponents comps = .ok () →
        createEntity eid etype aname esub (some comps)
          = .ok ⟨"POST", "/entities",
                 some [("entity_id", .str eid), ("entity_type", .str etype),
                       ("alias", .str aname), ("subtype", .str esub),
                       ("components", componentsToRecord (.obj comps))]⟩)
    ∧ (∃ req, createTask tid (some comps) none none none = .ok req)
    ∧ (∃ req, updateTask tid (some comps) none = .ok req) := by
  refine ⟨?_, ?_, ⟨_, rfl⟩, ⟨_, rfl⟩⟩
  · intro e he
    exact ⟨by simp [createEntity, he], by simp [updateEntity, he]⟩
  · intro hok
    simp [createEntity, hok]

theorem client_component_validation_scope_witness :
    createEntity "e1" "asset" "A" "drone" (some [("bogus", .num 1)])
        = .error (unknownComponentMessage "bogus")
    ∧ updateEntity "e1" (some [("bogus", .num 1)]) none
        = .error (unknownComponentMessage "bogus")
    ∧ createEntity "e1" "asset" "A" "drone" (some [("custom_x", .num 1)])
        = .ok ⟨"POST", "/entities",
               some [("entity_id", .str "e1"), ("entity_type", .str "asset"),
                     ("alias", .str "A"), ("subtype", .str "drone"),
                     ("components", componentsToRecord (.obj [("custom_x", .num 1)]))]⟩ :=
  ⟨((client_component_validation_scope "e1" "asset" "A" "drone" "t1"
      [("bogus", .num 1)]).1 _ rfl).1,
   ((client_component_validation_scope "e1" "asset" "A" "drone" "t1"
      [("bogus", .num 1)]).1 _ rfl).2,
   (client_component_validation_scope "e1" "asset" "A" "drone" "t1"
      [("custom_x", .num 1)]).2.1 rfl⟩

/-- C5: once an input contains no nullish values anywhere, one application
of the normalizer is a fixed point: normalizing twice equals normalizing
once for every record or sequence input free of nulls. -/
theorem stripValue_idempotent_noNulls (v : Value) (_hc : isContainer v = true)
    (h : noNulls v = true) :
    stripValue (stripValue v) = stripValue v := by
  have hs := stripValue_eq_self_of_noNulls v h
  rw [hs, hs]

theorem stripValue_idempotent_noNulls_witness :
    isContainer (Value.obj [("a", .num 1), ("b", .arr [.num 2])]) = true
    ∧ noNulls (Value.obj [("a", .num 1), ("b", .arr [.num 2])]) = true
    ∧ stripValue (stripValue (Value.obj [("a", .num 1), ("b", .arr [.num 2])]))
        = stripValue (Value.obj [("a", .num 1), ("b", .arr [.num 2])]) :=
  ⟨rfl, rfl, stripValue_idempotent_noNulls _ rfl rfl⟩

/-- C6: the normalizer is total and never fails: on every value of the
(acyclic by construction) inductive input domain, the fuel-indexed
version of the recursion succeeds — returning exactly the value of the
total function — whenever the fuel covers the size of the input, so the
recursion of the source terminates on every acyclic input. -/
theorem stripValue_total (v : Value) (n : Nat) (h : sizeOf v ≤ n) :
    stripValueFuel n v = some (stripValue v) :=
  stripValueFuel_complete n v h

theorem stripValue_total_witness :
    sizeOf (Value.arr [Value.vnull, Value.bool true]) ≤ 100
    ∧ stripValueFuel 100 (Value.arr [Value.vnull, Value.bool true])
        = some (stripValue (Value.arr [Value.vnull, Value.bool true])) :=
  ⟨by decide, stripValue_total (Value.arr [Value.vnull, Value.bool true]) 100 (by decide)⟩

/-- C7: on failure, `validateEntityComponents` deterministically reports
the first offending key in the insertion-iteration order of the mapping:
its result is fully determined by `firstBadKey`, succeeding when there is
no offending key and otherwise raising the error that names the earliest
key that is neither known nor prefixed. -/
theorem validateEntityComponents_first_bad_key (m : List (String × Value)) :
    validateEntityComponents m
      = match firstBadKey m with
        | none => .ok ()
        | some k => .error (unknownComponentMessage k) :=
  validateEntityComponents_eq_firstBadKey m

/-- C8: validation is shallow and depends only on the top-level key
sequence: two mappings with the same keys in the same order get identical
outcomes regardless of the values bound to the keys, so nested objects
are never inspected. -/
theorem validateEntityComponents_keys_only (m1 m2 : List (String × Value))
    (h : m1.map Prod.fst = m2.map Prod.fst) :
    validateEntityComponents m1 = validateEntityComponents m2 := by
  induction m1 generalizing m2 with
  | nil =>
      cases m2 with
      | nil => rfl
      | cons q t2 => simp at h
  | cons p t ih =>
      cases m2 with
      | nil => simp at h
      | cons q t2 =>
          obtain ⟨key, v⟩ := p
          obtain ⟨key2, v2⟩ := q
          simp only [List.map_cons, List.cons.injEq] at h
          obtain ⟨hk, ht⟩ := h
          subst hk
          rw [validateEntityComponents_cons, validateEntityComponents_cons, ih t2 ht]

theorem validateEntityComponents_keys_only_witness :
    ([("telemetry", Value.num 1)].map Prod.fst
        = [("telemetry", Value.obj [("deep_bogus", Value.vnull)])].map Prod.fst)
    ∧ validateEntityComponents [("telemetry", Value.num 1)]
        = validateEntityComponents [("telemetry", Value.obj [("deep_bogus", Value.vnull)])] :=
  ⟨rfl, validateEntityComponents_keys_only _ _ rfl⟩

/-- C9: output invariant of the normalizer: in the result of `stripValue`
(and hence of `componentsToRecord`) no record at any nesting depth —
including records inside sequences — binds a field to a nullish value;
nullish values can survive only as sequence elements. -/
theorem normalizer_output_no_null_record_fields (v : Value) :
    noNullFields (stripValue v) = true
    ∧ noNullFields (componentsToRecord v) = true := by
  refine ⟨noNullFields_stripValue v, ?_⟩
  cases v with
  | vnull => rfl
  | vundef => rfl
  | str s => rfl
  | num n => rfl
  | bool b => rfl
  | arr items => exact noNullFields_stripValue (.arr items)
  | obj fields => exact noNullFields_stripValue (.obj fields)

/-- C10: a null (as opposed to undefined) top-level argument bypasses the
explicit undefined check of `componentsToRecord` but is still mapped to
the absent sentinel by the null branch of the stripping function — the
result is undefined, not an empty record. -/
theorem componentsToRecord_null_absent :
    componentsToRecord .vnull = .vundef
    ∧ componentsToRecord .vnull ≠ .obj [] := by
  refine ⟨rfl, ?_⟩
  intro hcontra
  have : Value.vundef = Value.obj [] := hcontra
  cases this
